import Mathlib

/-!
Verification development for the toggl-scraper repository.

The Go sources are shallowly embedded as executable Lean definitions:

* instants are whole seconds since the Unix epoch (the window logic only
  ever shifts instants by whole hours, so second resolution is faithful);
* Go errors are carried as their message strings, fallible Go functions
  return `Except`;
* the process-wide run flag (an `atomic.Int32` holding 0 or 1) is a `Bool`
  threaded explicitly through the functions that touch it;
* the MySQL tables are association lists of rows keyed by the numeric id,
  and INSERT ... ON DUPLICATE KEY UPDATE is an explicit upsert on them.

Where two revisions of a file are present in the repository snapshot, the
model follows the revision the overall design needs: the guarded
`App.RunOnce` (with `tryBeginRun`/`endRun`) and the `SyncUseCase.Run`
that fetches projects before time entries, which are the revisions the
HTTP trigger endpoint and the rest of the design depend on.
-/

/-- Seconds in 24 hours, the constant `24 * time.Hour` of the Go sources. -/
def secondsPerDay : Int := 24 * 60 * 60

/-- A calendar date as produced by Go `time.Parse("2006-01-02", val)`. -/
structure Date where
  year : Nat
  month : Nat
  day : Nat
deriving DecidableEq

/-- Gregorian leap-year test (as in Go's time package). -/
def isLeap (y : Nat) : Bool :=
  y % 4 == 0 && (y % 100 != 0 || y % 400 == 0)

/-- Number of days in the given month of the given year. -/
def daysInMonth (y : Nat) (m : Nat) : Nat :=
  if m = 2 then (if isLeap y then 29 else 28)
  else if m = 4 ∨ m = 6 ∨ m = 9 ∨ m = 11 then 30
  else 31

/-- A calendar date that actually exists (month in range, day in range). -/
def Date.Valid (dt : Date) : Prop :=
  1 ≤ dt.month ∧ dt.month ≤ 12 ∧ 1 ≤ dt.day ∧ dt.day ≤ daysInMonth dt.year dt.month

instance (dt : Date) : Decidable dt.Valid := by
  unfold Date.Valid; infer_instance

/-- Julian day number of a calendar date (standard civil-calendar formula;
all divisions are floor divisions on nonnegative operands). -/
def Date.jdn (dt : Date) : Nat :=
  let a := (14 - dt.month) / 12
  let y := dt.year + 4800 - a
  let m := dt.month + 12 * a - 3
  dt.day + (153 * m + 2) / 5 + 365 * y + y / 4 - y / 100 + y / 400 - 32045

/-- Julian day number of 1970-01-01, the Unix epoch. -/
def unixEpochJdn : Nat := 2440588

/-- Midnight UTC of a calendar date, as an instant. This embeds the Go
expression `time.Date(d.Year(), d.Month(), d.Day(), 0, 0, 0, 0, time.UTC)`
applied to a parsed date `d`. -/
def Date.midnightUTC (dt : Date) : Int :=
  secondsPerDay * ((dt.jdn : Int) - (unixEpochJdn : Int))

/-- Midnight of the calendar day containing instant `t`: embeds the Go
expression `time.Date(x.Year(), x.Month(), x.Day(), 0, 0, 0, 0, loc)` for
an instant `x` in a fixed-offset location (Lean's `%` on `Int` is the
nonnegative Euclidean remainder, so this is a floor for negative `t` too). -/
def dayFloor (t : Int) : Int :=
  t - t % secondsPerDay

/-- The next calendar date after `dt`. This definition follows the spec's
words ("midnight UTC of the next calendar date"); the Go code instead adds
24 hours to the parsed midnight and rebuilds the date. The window-parser
theorem relates the two. -/
def specNextCalendarDate (dt : Date) : Date :=
  if dt.day < daysInMonth dt.year dt.month then ⟨dt.year, dt.month, dt.day + 1⟩
  else if dt.month < 12 then ⟨dt.year, dt.month + 1, 1⟩
  else ⟨dt.year + 1, 1, 1⟩

/-- Classification of a window boundary token by the outcome of the parse
attempts the Go code makes, in source order: the empty check, then
`time.Parse(time.RFC3339, val)`, then `time.Parse("2006-01-02", val)`.
For any concrete string exactly one class applies, so a token is embedded
by which attempt succeeds and by the value that attempt produces. -/
inductive Token where
  | empty
  | rfc3339 (t : Int)
  | dateOnly (d : Date)
  | malformed
deriving DecidableEq

/-- Result of a CLI parse: an instant, or the process exiting with the
given nonzero code (`os.Exit(1)` in the Go `parseStart`/`parseEnd`). -/
abbrev CLIResult := Except Nat Int

/-- Embeds `parseStart` of cmd/toggl-scraper/main.go. -/
def parseStart : Token → Int → CLIResult
  | Token.empty, dflt => Except.ok dflt
  | Token.rfc3339 t, _ => Except.ok t
  | Token.dateOnly d, _ => Except.ok d.midnightUTC
  | Token.malformed, _ => Except.error 1

/-- Embeds `parseEnd` of cmd/toggl-scraper/main.go: the date-only branch
computes `next := d.Add(24 * time.Hour)` and rebuilds midnight UTC of the
day containing `next`. -/
def parseEnd : Token → Int → CLIResult
  | Token.empty, dflt => Except.ok dflt
  | Token.rfc3339 t, _ => Except.ok t
  | Token.dateOnly d, _ => Except.ok (dayFloor (d.midnightUTC + secondsPerDay))
  | Token.malformed, _ => Except.error 1

/-- Embeds `parseStartHTTP` of internal/app/http_server.go: same branches
as the CLI parser except that a malformed token falls back to the default. -/
def parseStartHTTP : Token → Int → Int
  | Token.empty, dflt => dflt
  | Token.rfc3339 t, _ => t
  | Token.dateOnly d, _ => d.midnightUTC
  | Token.malformed, dflt => dflt

/-- Embeds `parseEndHTTP` of internal/app/http_server.go. -/
def parseEndHTTP : Token → Int → Int
  | Token.empty, dflt => dflt
  | Token.rfc3339 t, _ => t
  | Token.dateOnly d, _ => dayFloor (d.midnightUTC + secondsPerDay)
  | Token.malformed, dflt => dflt

/-- The CLI window resolution of cmd/toggl-scraper/main.go: the end
boundary is resolved first against `now`, then the start boundary against
`toTime.Add(-24 * time.Hour)`; a fatal parse exits the process. -/
def cliWindow (fromTok toTok : Token) (now : Int) : Except Nat (Int × Int) :=
  match parseEnd toTok now with
  | Except.error c => Except.error c
  | Except.ok toTime =>
    match parseStart fromTok (toTime - secondsPerDay) with
    | Except.error c => Except.error c
    | Except.ok fromTime => Except.ok (fromTime, toTime)

/-- The window resolution of the /sync handler in
internal/app/http_server.go (lines computing toTime and fromTime). -/
def httpWindow (fromTok toTok : Token) (now : Int) : Int × Int :=
  let toTime := parseEndHTTP toTok now
  let fromTime := parseStartHTTP fromTok (toTime - secondsPerDay)
  (fromTime, toTime)

/-- Embeds `nextMidnight` of cmd/toggl-scraper/main.go. A local wall-clock
time in a fixed-offset location is an `Int`; rebuilding midnight of
the current date is `dayFloor`; Go's `t.After(m)` is `m < t` and
`t.Equal(m)` is `t = m`. -/
def nextMidnight (t : Int) : Int :=
  let midnight := dayFloor t
  if ¬ (midnight < t) then
    if t = midnight then midnight + secondsPerDay
    else midnight
  else midnight + secondsPerDay

/-- A Go error, carried as its message string. -/
abbrev Err := String

/-- The error built by `errors.New("sync already running")` in App.RunOnce. -/
def errSyncAlreadyRunning : Err := "sync already running"

/-- Embeds domain.TimeEntry (internal/domain): nil pointers are `none`. -/
structure TimeEntry where
  ID : Int
  Description : String
  ProjectID : Option Int
  WorkspaceID : Option Int
  Tags : List String
  Start : Int
  Stop : Option Int
  DurationSec : Int
deriving DecidableEq

/-- Embeds domain.Project (internal/domain/project.go). -/
structure Project where
  ID : Int
  WorkspaceID : Int
  Name : String
  Active : Bool
  Private : Bool
  Color : String
  ClientID : Option Int
  At : Int
deriving DecidableEq

/-- One run's view of the two ports of internal/ports/ports.go: each port
method is a function giving the result that method returns if called
during this run (the TogglClient methods' data, and the Sink methods'
success or error). The dependency-presence check at the top of
SyncUseCase.Run is omitted: in the embedding the ports are always present. -/
structure Ports where
  listProjects : Except Err (List Project)
  syncProjects : List Project → Except Err Unit
  listTimeEntries : Int → Int → Except Err (List TimeEntry)
  syncEntries : List TimeEntry → Except Err Unit

/-- An observable port call made during a run, in call order. -/
inductive Event where
  | listProjectsCall
  | syncProjectsCall (ps : List Project)
  | listTimeEntriesCall (fromT toT : Int)
  | syncEntriesCall (es : List TimeEntry)
deriving DecidableEq

/-- The time-entries phase of SyncUseCase.Run (internal/usecase/sync.go,
from the ListTimeEntries call to the end), with the trace accumulated so
far. -/
def runEntriesPhase (p : Ports) (fromT toT : Int) (trace : List Event) :
    Except Err Unit × List Event :=
  match p.listTimeEntries fromT toT with
  | Except.error e => (Except.error e, trace ++ [Event.listTimeEntriesCall fromT toT])
  | Except.ok entries =>
    if entries.length = 0 then
      (Except.ok (), trace ++ [Event.listTimeEntriesCall fromT toT])
    else
      match p.syncEntries entries with
      | Except.error e =>
        (Except.error e,
          trace ++ [Event.listTimeEntriesCall fromT toT, Event.syncEntriesCall entries])
      | Except.ok _ =>
        (Except.ok (),
          trace ++ [Event.listTimeEntriesCall fromT toT, Event.syncEntriesCall entries])

/-- Embeds SyncUseCase.Run (internal/usecase/sync.go): fetch projects,
persist them when the list is nonempty, then fetch and persist time
entries; every early `return err` of the Go code is an `Except.error`
result carrying the trace of port calls made up to that point. -/
def SyncUseCase.Run (p : Ports) (fromT toT : Int) : Except Err Unit × List Event :=
  match p.listProjects with
  | Except.error e => (Except.error e, [Event.listProjectsCall])
  | Except.ok projects =>
    if projects.length > 0 then
      match p.syncProjects projects with
      | Except.error e =>
        (Except.error e, [Event.listProjectsCall, Event.syncProjectsCall projects])
      | Except.ok _ =>
        runEntriesPhase p fromT toT
          [Event.listProjectsCall, Event.syncProjectsCall projects]
    else
      runEntriesPhase p fromT toT [Event.listProjectsCall]

/-- Embeds App.tryBeginRun: `running.CompareAndSwap(0, 1)` succeeds iff the
flag is clear, and sets it. Returns (succeeded, new flag value). -/
def tryBeginRun (running : Bool) : Bool × Bool :=
  if running = false then (true, true) else (false, running)

/-- Embeds App.endRun: `running.Store(0)`. -/
def endRun (_ : Bool) : Bool :=
  false

/-- Embeds App.RunOnce (the guarded revision): attempt the guard; on
rejection return the "sync already running" error having made no port
call; on admission run the sync body and release the guard on every exit
path (the deferred endRun). Returns (body result, port-call trace, final
flag value). -/
def RunOnce (running : Bool) (p : Ports) (fromT toT : Int) :
    Except Err Unit × List Event × Bool :=
  match tryBeginRun running with
  | (false, r1) => (Except.error errSyncAlreadyRunning, [], r1)
  | (true, r1) =>
    let (res, trace) := SyncUseCase.Run p fromT toT
    (res, trace, endRun r1)

/-- The status code the /sync handler writes for a RunOnce result:
200 on success, 409 when the error message is "sync already running",
500 otherwise (internal/app/http_server.go). -/
def syncHTTPStatus (res : Except Err Unit) : Nat :=
  match res with
  | Except.ok _ => 200
  | Except.error e => if e = errSyncAlreadyRunning then 409 else 500

/-- The /sync handler's JSON response, reduced to the fields the claims
speak about: HTTP status and the resolved window. -/
structure SyncResponse where
  status : Nat
  fromT : Int
  toT : Int
deriving DecidableEq

/-- Embeds the /sync handler body (internal/app/http_server.go): resolve
the window from the query tokens, invoke RunOnce, and map its result to a
status code. The handler has no rejection path for unparseable tokens. -/
def syncHandler (fromTok toTok : Token) (now : Int) (running : Bool) (p : Ports) :
    SyncResponse × Bool :=
  let toTime := parseEndHTTP toTok now
  let fromTime := parseStartHTTP fromTok (toTime - secondsPerDay)
  let (res, _tr, r1) := RunOnce running p fromTime toTime
  ({ status := syncHTTPStatus res, fromT := fromTime, toT := toTime }, r1)

/-- Does the table hold a row with the given id. -/
def hasKey {α : Type} (t : List (Int × α)) (id : Int) : Bool :=
  t.any (fun kv => kv.1 == id)

/-- One INSERT ... ON DUPLICATE KEY UPDATE execution against a table whose
rows are keyed by `id` (a primary key): if the id is present, every field
of its row is overwritten with the incoming values; otherwise the row is
inserted. -/
def upsertRow {α : Type} (t : List (Int × α)) (id : Int) (r : α) : List (Int × α) :=
  if hasKey t id then t.map (fun kv => if kv.1 == id then (id, r) else kv)
  else t ++ [(id, r)]

/-- The statement-execution loop of Client.SyncEntries / Client.SyncProjects:
one upsert per batch element, in batch order, inside one transaction
(statement execution itself always succeeds in the model, so the commit is
implicit). -/
def upsertMany {α β : Type} (key : β → Int) (row : β → α)
    (t : List (Int × α)) (bs : List β) : List (Int × α) :=
  bs.foldl (fun s b => upsertRow s (key b) (row b)) t

/-- A row of the toggl_time_entries table (columns of 0001_init.sql).
Tags are stored as the serialized tag list; serializing equal lists is
byte-identical, so the list itself is a faithful model of the column. -/
structure EntryRow where
  description : String
  projectId : Option Int
  workspaceId : Option Int
  tags : List String
  start : Int
  stop : Option Int
  durationSec : Int
deriving DecidableEq

/-- The column values Client.SyncEntries binds for one entry: nil pointers
become NULL (`none`), instants are normalized to UTC (identity here). -/
def entryRow (e : TimeEntry) : EntryRow :=
  { description := e.Description
    projectId := e.ProjectID
    workspaceId := e.WorkspaceID
    tags := e.Tags
    start := e.Start
    stop := e.Stop
    durationSec := e.DurationSec }

/-- A row of the toggl_projects table (columns of 0002_projects.sql; the
column named at is `atTime` here because at is a Lean keyword). -/
structure ProjectRow where
  workspaceId : Int
  name : String
  active : Bool
  isPrivate : Bool
  color : String
  clientId : Option Int
  atTime : Int
deriving DecidableEq

/-- The column values Client.SyncProjects binds for one project. -/
def projectRow (p : Project) : ProjectRow :=
  { workspaceId := p.WorkspaceID
    name := p.Name
    active := p.Active
    isPrivate := p.Private
    color := p.Color
    clientId := p.ClientID
    atTime := p.At }

/-- Embeds Client.SyncEntries (mysql adapter): an empty batch returns with
no table access; otherwise each entry is upserted keyed by its ID. -/
def Client.SyncEntries (store : List (Int × EntryRow)) (entries : List TimeEntry) :
    List (Int × EntryRow) :=
  if entries.length = 0 then store
  else upsertMany (fun e => e.ID) entryRow store entries

/-- Embeds Client.SyncProjects (mysql adapter). -/
def Client.SyncProjects (store : List (Int × ProjectRow)) (projects : List Project) :
    List (Int × ProjectRow) :=
  if projects.length = 0 then store
  else upsertMany (fun p => p.ID) projectRow store projects

/-- All-digit parse of a character list (the digit core of Go's Atoi). -/
def digitsToNat (l : List Char) : Option Nat :=
  if l = [] then none
  else if l.all (fun c => c.isDigit) then
    some (l.foldl (fun acc c => 10 * acc + (c.toNat - 48)) 0)
  else none

/-- Embeds Go `strconv.Atoi`: optional sign, then digits. -/
def atoi (s : String) : Option Int :=
  match s.toList with
  | '+' :: rest => (digitsToNat rest).map (fun n => (n : Int))
  | '-' :: rest => (digitsToNat rest).map (fun n => -(n : Int))
  | l => (digitsToNat l).map (fun n => (n : Int))

/-- Embeds `parseVersion` of internal/migrate/migrate.go: index of the
first underscore must be positive; the prefix before it is Atoi-parsed.
`none` is the fatal "invalid migration filename" error. -/
def parseVersion (name : String) : Option Int :=
  match name.toList.findIdx? (fun c => c == '_') with
  | none => none
  | some 0 => none
  | some i => atoi (String.mk (name.toList.take i))

/-- The numeric version of a migration file name (0 when unparseable;
only used under hypotheses that every name parses). -/
def versionOf (f : String) : Int :=
  (parseVersion f).getD 0

/-- Byte-wise lexicographic comparison of character lists (Go compares
strings byte by byte; for the ASCII migration file names the code points
are the bytes). -/
def lexLeChars : List Char → List Char → Bool
  | [], _ => true
  | _ :: _, [] => false
  | a :: as, b :: bs =>
    if a.toNat < b.toNat then true
    else if b.toNat < a.toNat then false
    else lexLeChars as bs

/-- Byte-wise lexicographic order on strings, as Go compares them. -/
def lexLe (a b : String) : Bool :=
  lexLeChars a.toList b.toList

/-- Insert a string into a lexicographically sorted list of strings. -/
def insertSorted (s : String) : List String → List String
  | [] => [s]
  | x :: xs => if lexLe s x then s :: x :: xs else x :: insertSorted s xs

/-- Embeds `sort.Strings(files)`: lexicographic string sort (insertion
sort here; only the sorted output matters, not the algorithm). -/
def sortStrings (files : List String) : List String :=
  files.foldr insertSorted []

/-- The migration loop of migrate.Run: walk the sorted file names; a name
that fails parseVersion aborts with the "invalid migration filename"
error; a version already in the ledger is skipped; otherwise the script is
executed and a ledger record for its version appended (script execution
itself succeeds in the model, as in the claims about ordering and skip).
Returns (ledger records appended, executed file names), each in order. -/
def migrateLoop (applied : List Int) :
    List String → List Int → List String → Except Err (List Int × List String)
  | [], ledger, executed => Except.ok (ledger, executed)
  | f :: rest, ledger, executed =>
    match parseVersion f with
    | none => Except.error ("invalid migration filename " ++ f)
    | some v =>
      if v ∈ applied then migrateLoop applied rest ledger executed
      else migrateLoop applied rest (ledger ++ [v]) (executed ++ [f])

/-- Embeds migrate.Run (after the connection and ledger-table steps):
glob results are sorted lexicographically, then walked by the loop with
the ledger versions loaded up front. -/
def migrateRun (files : List String) (applied : List Int) :
    Except Err (List Int × List String) :=
  migrateLoop applied (sortStrings files) [] []

/-- The embedded migration scripts of internal/migrate/sql. -/
def migrationFiles : List String :=
  ["0001_init.sql", "0002_projects.sql"]

/-- A port bundle whose every call succeeds with empty data; used to
instantiate universally quantified statements at a concrete input. -/
def emptyPorts : Ports where
  listProjects := Except.ok []
  syncProjects := fun _ => Except.ok ()
  listTimeEntries := fun _ _ => Except.ok []
  syncEntries := fun _ => Except.ok ()

/-- A port bundle with one project, successful persistence, and a failing
time-entries fetch; used to instantiate claims at a concrete input. -/
def failingEntriesPorts : Ports where
  listProjects := Except.ok [⟨9, 1, "p", true, false, "c", none, 0⟩]
  syncProjects := fun _ => Except.ok ()
  listTimeEntries := fun _ _ => Except.error "network down"
  syncEntries := fun _ => Except.ok ()

/-- Claim C8: for every local time t, nextMidnight t is a midnight (a
multiple of 24 hours) lying strictly after t, and it is the earliest such
midnight; in particular when t is exactly midnight the result is t plus
24 hours, never t itself. -/
theorem nextMidnight_strictly_after (t : Int) :
    t < nextMidnight t ∧
    nextMidnight t % secondsPerDay = 0 ∧
    nextMidnight t ≤ t + secondsPerDay ∧
    (t % secondsPerDay = 0 → nextMidnight t = t + secondsPerDay) := by
  unfold nextMidnight dayFloor secondsPerDay
  simp only []
  split_ifs <;> omega

/-- Claim C7: a malformed window token is fatal at the CLI surface (each
parser exits the process with code 1, nonzero, and the whole window
resolution exits whichever side the token is on), while at the HTTP
trigger endpoint the same token silently falls back to the supplied
default and the handler proceeds exactly as if the token were absent. -/
theorem malformed_token_asymmetry (dflt now : Int) (fromTok toTok : Token)
    (running : Bool) (p : Ports) :
    parseStart Token.malformed dflt = Except.error 1 ∧
    parseEnd Token.malformed dflt = Except.error 1 ∧
    (1 : Nat) ≠ 0 ∧
    cliWindow Token.malformed toTok now = Except.error 1 ∧
    cliWindow fromTok Token.malformed now = Except.error 1 ∧
    parseStartHTTP Token.malformed dflt = dflt ∧
    parseEndHTTP Token.malformed dflt = dflt ∧
    syncHandler Token.malformed Token.malformed now running p
      = syncHandler Token.empty Token.empty now running p := by
  refine ⟨rfl, rfl, by decide, ?_, rfl, rfl, rfl, rfl⟩
  cases toTok <;> rfl

/-- Claim C10: on both surfaces, an empty start token defaults the start
boundary to exactly 24 hours before the resolved end boundary, and an
empty end token defaults the end boundary to the supplied current time. -/
theorem empty_start_defaults (toTok : Token) (now : Int) :
    httpWindow Token.empty toTok now
      = (parseEndHTTP toTok now - secondsPerDay, parseEndHTTP toTok now) ∧
    parseEndHTTP Token.empty now = now ∧
    (∀ e : Int, parseEnd toTok now = Except.ok e →
      cliWindow Token.empty toTok now = Except.ok (e - secondsPerDay, e)) ∧
    parseEnd Token.empty now = Except.ok now := by
  refine ⟨rfl, rfl, ?_, rfl⟩
  intro e he
  unfold cliWindow
  rw [he]
  rfl

/-- Closed instance of the claim C10 theorem: an explicit end boundary of
1755302400 (an instant different from now = 0) yields the window starting
exactly 24 hours before that end boundary, not 24 hours before now. -/
theorem empty_start_defaults_witness :
    cliWindow Token.empty (Token.rfc3339 1755302400) 0
      = Except.ok (1755302400 - secondsPerDay, 1755302400) :=
  (empty_start_defaults (Token.rfc3339 1755302400) 0).2.2.1 1755302400 rfl

/-- Claim C4: after an admitted RunOnce returns the run flag is reset to
false whether the body succeeded or failed (so a single subsequent attempt
is admitted), while a rejected attempt returns the distinct error without
resetting the flag. -/
theorem runOnce_resets_flag (p : Ports) (fromT toT : Int) :
    (RunOnce false p fromT toT).2.2 = false ∧
    (tryBeginRun (RunOnce false p fromT toT).2.2).1 = true ∧
    (RunOnce true p fromT toT).2.2 = true ∧
    (RunOnce true p fromT toT).1 = Except.error errSyncAlreadyRunning := by
  rcases hrun : SyncUseCase.Run p fromT toT with ⟨res, trace⟩
  refine ⟨?_, ?_, ?_, ?_⟩ <;>
    simp [RunOnce, tryBeginRun, endRun, hrun]

/-- Claim C1: while the run flag is set, any further RunOnce call fails
the guard: it makes no port call (no fetch, no persistence), leaves the
flag untouched, and returns the distinct "sync already running" error; the
/sync handler maps exactly that error to status 409 and every other run
error to 500, which is not the conflict status. -/
theorem runOnce_rejected_while_running (p : Ports) (fromT toT : Int)
    (fromTok toTok : Token) (now : Int) :
    RunOnce true p fromT toT = (Except.error errSyncAlreadyRunning, [], true) ∧
    (syncHandler fromTok toTok now true p).1.status = 409 ∧
    (∀ e : Err, e ≠ errSyncAlreadyRunning → syncHTTPStatus (Except.error e) = 500) ∧
    (500 : Nat) ≠ 409 := by
  refine ⟨?_, ?_, ?_, by decide⟩
  · simp [RunOnce, tryBeginRun]
  · simp [syncHandler, RunOnce, tryBeginRun, syncHTTPStatus]
  · intro e he
    simp [syncHTTPStatus, he]

/-- Closed instance of the claim C1 theorem: with a run in flight the
trivial port bundle is never consulted, and the generic error "boom" maps
to 500, not the conflict status. -/
theorem runOnce_rejected_while_running_witness :
    RunOnce true emptyPorts 0 86400 = (Except.error errSyncAlreadyRunning, [], true) ∧
    syncHTTPStatus (Except.error "boom") = 500 :=
  ⟨(runOnce_rejected_while_running emptyPorts 0 86400 Token.empty Token.empty 0).1,
   (runOnce_rejected_while_running emptyPorts 0 86400 Token.empty Token.empty 0).2.2.1
     "boom" (by decide)⟩

/-- Claim C3: SyncUseCase.Run fetches projects first; if that fetch fails
the run returns that error having called nothing but ListProjects (no
persistence call of either kind); if the later time-entries fetch fails,
that error is returned with no entry-persistence call, while a project
persistence already performed in the same run stays in the trace. -/
theorem sync_run_fetch_failure_ordering (p : Ports) (fromT toT : Int) :
    (∀ e, p.listProjects = Except.error e →
      SyncUseCase.Run p fromT toT = (Except.error e, [Event.listProjectsCall])) ∧
    (∀ projects e,
      p.listProjects = Except.ok projects →
      (projects.length > 0 → p.syncProjects projects = Except.ok ()) →
      p.listTimeEntries fromT toT = Except.error e →
      (SyncUseCase.Run p fromT toT).1 = Except.error e ∧
      (∀ es, Event.syncEntriesCall es ∉ (SyncUseCase.Run p fromT toT).2) ∧
      (projects.length > 0 →
        Event.syncProjectsCall projects ∈ (SyncUseCase.Run p fromT toT).2)) := by
  constructor
  · intro e he
    simp [SyncUseCase.Run, he]
  · intro projects e hproj hsync hentries
    by_cases hlen : projects.length > 0
    · simp [SyncUseCase.Run, hproj, hlen, hsync hlen, runEntriesPhase, hentries]
    · simp [SyncUseCase.Run, hproj, hlen, runEntriesPhase, hentries]

/-- Closed instance of the claim C3 theorem: with one project fetched and
persisted and the entries fetch failing with "network down", the run
returns that error, the trace holds the project persistence and no entry
persistence. -/
theorem sync_run_fetch_failure_ordering_witness :
    (SyncUseCase.Run failingEntriesPorts 0 86400).1 = Except.error "network down" ∧
    Event.syncProjectsCall [⟨9, 1, "p", true, false, "c", none, 0⟩]
      ∈ (SyncUseCase.Run failingEntriesPorts 0 86400).2 := by
  have h := ((sync_run_fetch_failure_ordering failingEntriesPorts 0 86400).2
    [⟨9, 1, "p", true, false, "c", none, 0⟩] "network down" rfl (fun _ => rfl) rfl)
  exact ⟨h.1, h.2.2 (by decide)⟩

/-- Claim C9: an empty project list from the source leads to no
project-persistence call, and an empty entries list (after a successful
projects phase) leads to no entry-persistence call and a successful run. -/
theorem zero_record_noop (p : Ports) (fromT toT : Int) :
    (p.listProjects = Except.ok [] →
      ∀ ps, Event.syncProjectsCall ps ∉ (SyncUseCase.Run p fromT toT).2) ∧
    (∀ projects, p.listProjects = Except.ok projects →
      (projects = [] ∨ p.syncProjects projects = Except.ok ()) →
      p.listTimeEntries fromT toT = Except.ok [] →
      (SyncUseCase.Run p fromT toT).1 = Except.ok () ∧
      ∀ es, Event.syncEntriesCall es ∉ (SyncUseCase.Run p fromT toT).2) := by
  constructor
  · intro hproj ps
    rcases h : p.listTimeEntries fromT toT with e | entries
    · simp [SyncUseCase.Run, hproj, runEntriesPhase, h]
    · rcases entries with _ | ⟨a, rest⟩
      · simp [SyncUseCase.Run, hproj, runEntriesPhase, h]
      · rcases hs : p.syncEntries (a :: rest) with e2 | u <;>
          simp [SyncUseCase.Run, hproj, runEntriesPhase, h, hs]
  · intro projects hproj hdisj hentries
    rcases hdisj with hnil | hsync
    · subst hnil
      simp [SyncUseCase.Run, hproj, runEntriesPhase, hentries]
    · by_cases hlen : projects.length > 0
      · simp [SyncUseCase.Run, hproj, hlen, hsync, runEntriesPhase, hentries]
      · simp [SyncUseCase.Run, hproj, hlen, runEntriesPhase, hentries]

/-- Closed instance of the claim C9 theorem: empty project and entries
lists yield a successful run with no persistence call of either kind. -/
theorem zero_record_noop_witness :
    (SyncUseCase.Run emptyPorts 0 86400).1 = Except.ok () ∧
    Event.syncEntriesCall [] ∉ (SyncUseCase.Run emptyPorts 0 86400).2 ∧
    Event.syncProjectsCall [] ∉ (SyncUseCase.Run emptyPorts 0 86400).2 := by
  have h := zero_record_noop emptyPorts 0 86400
  have h2 := h.2 [] rfl (Or.inl rfl) rfl
  exact ⟨h2.1, h2.2 [], h.1 rfl []⟩

lemma hasKey_upsertRow_self {α : Type} (t : List (Int × α)) (id : Int) (r : α) :
    hasKey (upsertRow t id r) id = true := by
  unfold upsertRow
  split
  · rename_i h
    unfold hasKey at h ⊢
    rw [List.any_eq_true] at h ⊢
    obtain ⟨kv, hmem, hkv⟩ := h
    refine ⟨(id, r), List.mem_map.mpr ⟨kv, hmem, ?_⟩, by simp⟩
    simp [hkv]
  · unfold hasKey
    rw [List.any_eq_true]
    exact ⟨(id, r), by simp, by simp⟩

lemma hasKey_upsertRow_mono {α : Type} {t : List (Int × α)} {idb : Int}
    (id : Int) (r : α) (h : hasKey t idb = true) :
    hasKey (upsertRow t id r) idb = true := by
  unfold upsertRow
  split
  · unfold hasKey at h ⊢
    rw [List.any_eq_true] at h ⊢
    obtain ⟨kv, hmem, hkv⟩ := h
    refine ⟨if kv.1 == id then (id, r) else kv, List.mem_map.mpr ⟨kv, hmem, rfl⟩, ?_⟩
    split
    · rename_i hc
      simp_all
    · exact hkv
  · unfold hasKey at h ⊢
    rw [List.any_eq_true] at h ⊢
    obtain ⟨kv, hmem, hkv⟩ := h
    exact ⟨kv, List.mem_append_left _ hmem, hkv⟩

lemma allEq_upsertRow_self {α : Type} (t : List (Int × α)) (id : Int) (r : α) :
    ∀ kv ∈ upsertRow t id r, kv.1 = id → kv = (id, r) := by
  intro kv hmem hk
  unfold upsertRow at hmem
  split at hmem
  · obtain ⟨kv0, hkv0, heq⟩ := List.mem_map.mp hmem
    by_cases hc : (kv0.1 == id) = true
    · rw [if_pos hc] at heq
      exact heq.symm
    · rw [if_neg hc] at heq
      subst heq
      simp at hc
      exact absurd hk hc
  · rename_i h
    rcases List.mem_append.mp hmem with h1 | h2
    · exfalso
      apply h
      unfold hasKey
      rw [List.any_eq_true]
      exact ⟨kv, h1, by simp [hk]⟩
    · simpa using h2

lemma allEq_upsertRow_other {α : Type} {t : List (Int × α)} {id idb : Int} {r rb : α}
    (hne : id ≠ idb)
    (h : ∀ kv ∈ t, kv.1 = idb → kv = (idb, rb)) :
    ∀ kv ∈ upsertRow t id r, kv.1 = idb → kv = (idb, rb) := by
  intro kv hmem hk
  unfold upsertRow at hmem
  split at hmem
  · obtain ⟨kv0, hkv0, heq⟩ := List.mem_map.mp hmem
    by_cases hc : (kv0.1 == id) = true
    · rw [if_pos hc] at heq
      rw [← heq] at hk
      exact absurd hk hne
    · rw [if_neg hc] at heq
      subst heq
      exact h kv0 hkv0 hk
  · rcases List.mem_append.mp hmem with h1 | h2
    · exact h kv h1 hk
    · simp at h2
      subst h2
      exact absurd hk hne

lemma replaceMap_eq_self {α : Type} (id : Int) (r : α) :
    ∀ t : List (Int × α), (∀ kv ∈ t, kv.1 = id → kv = (id, r)) →
      t.map (fun kv => if kv.1 == id then (id, r) else kv) = t
  | [], _ => rfl
  | head :: tail, h => by
    simp only [List.map_cons]
    rw [replaceMap_eq_self id r tail (fun kv hm hk => h kv (List.mem_cons_of_mem _ hm) hk)]
    by_cases hc : (head.1 == id) = true
    · have hh := h head (List.mem_cons_self _ _) (by simpa using hc)
      rw [if_pos hc, hh]
    · rw [if_neg hc]

lemma upsertRow_eq_self {α : Type} {t : List (Int × α)} {id : Int} {r : α}
    (hkey : hasKey t id = true)
    (h : ∀ kv ∈ t, kv.1 = id → kv = (id, r)) :
    upsertRow t id r = t := by
  unfold upsertRow
  rw [if_pos hkey]
  exact replaceMap_eq_self id r t h

lemma hasKey_upsertMany_mono {α β : Type} (key : β → Int) (row : β → α) :
    ∀ (bs : List β) (t : List (Int × α)) (idb : Int),
      hasKey t idb = true → hasKey (upsertMany key row t bs) idb = true
  | [], _, _, h => h
  | b :: bs, t, idb, h => by
    unfold upsertMany
    simp only [List.foldl_cons]
    exact hasKey_upsertMany_mono key row bs _ idb (hasKey_upsertRow_mono _ _ h)

lemma allEq_upsertMany {α β : Type} (key : β → Int) (row : β → α) :
    ∀ (bs : List β) (t : List (Int × α)) (idb : Int) (rb : α),
      (∀ b ∈ bs, key b ≠ idb) →
      (∀ kv ∈ t, kv.1 = idb → kv = (idb, rb)) →
      ∀ kv ∈ upsertMany key row t bs, kv.1 = idb → kv = (idb, rb)
  | [], _, _, _, _, h => h
  | b :: bs, t, idb, rb, hne, h => by
    unfold upsertMany
    simp only [List.foldl_cons]
    exact allEq_upsertMany key row bs _ idb rb
      (fun x hx => hne x (List.mem_cons_of_mem _ hx))
      (allEq_upsertRow_other (hne b (List.mem_cons_self _ _)) h)

lemma upsertMany_idem {α β : Type} (key : β → Int) (row : β → α) :
    ∀ (bs : List β) (t : List (Int × α)), (bs.map key).Nodup →
      upsertMany key row (upsertMany key row t bs) bs = upsertMany key row t bs
  | [], _, _ => rfl
  | b :: bs, t, hnd => by
    simp only [List.map_cons, List.nodup_cons, List.mem_map] at hnd
    obtain ⟨hb, hnd2⟩ := hnd
    unfold upsertMany
    simp only [List.foldl_cons]
    have hkey : hasKey
        (List.foldl (fun s x => upsertRow s (key x) (row x)) (upsertRow t (key b) (row b)) bs)
        (key b) = true :=
      hasKey_upsertMany_mono key row bs (upsertRow t (key b) (row b)) (key b)
        (hasKey_upsertRow_self t (key b) (row b))
    have hall : ∀ kv ∈
        List.foldl (fun s x => upsertRow s (key x) (row x)) (upsertRow t (key b) (row b)) bs,
        kv.1 = key b → kv = (key b, row b) :=
      allEq_upsertMany key row bs (upsertRow t (key b) (row b)) (key b) (row b)
        (fun x hx hcontra => hb ⟨x, hx, hcontra⟩)
        (allEq_upsertRow_self t (key b) (row b))
    rw [upsertRow_eq_self hkey hall]
    exact upsertMany_idem key row bs (upsertRow t (key b) (row b)) hnd2

lemma mapReplace_filter_nil {α : Type} (id : Int) (r : α) (t : List (Int × α))
    (h : hasKey t id = false) :
    (t.map (fun kv => if kv.1 == id then (id, r) else kv)).filter
      (fun kv => kv.1 == id) = [] := by
  rw [List.filter_eq_nil_iff]
  intro a ha
  obtain ⟨kv, hkv, heq⟩ := List.mem_map.mp ha
  unfold hasKey at h
  rw [List.any_eq_false] at h
  have hne := h kv hkv
  rw [if_neg hne] at heq
  subst heq
  exact hne

lemma upsertRow_filter {α : Type} (id : Int) (r : α) :
    ∀ t : List (Int × α), (t.map Prod.fst).Nodup → hasKey t id = true →
      (upsertRow t id r).filter (fun kv => kv.1 == id) = [(id, r)]
  | [], _, hkey => by simp [hasKey] at hkey
  | head :: tail, hnd, hkey => by
    unfold upsertRow
    rw [if_pos hkey]
    simp only [List.map_cons, List.nodup_cons] at hnd
    obtain ⟨hhead, hndtail⟩ := hnd
    by_cases hc : (head.1 == id) = true
    · have hid : head.1 = id := by simpa using hc
      have htail : hasKey tail id = false := by
        unfold hasKey
        rw [List.any_eq_false]
        intro kv hkv
        simp only [beq_iff_eq]
        intro hkvid
        exact hhead (by rw [← hid] at hkvid; exact List.mem_map.mpr ⟨kv, hkv, hkvid⟩)
      simp only [List.map_cons, if_pos hc, List.filter_cons]
      rw [mapReplace_filter_nil id r tail htail]
      simp
    · have htail : hasKey tail id = true := by
        unfold hasKey at hkey ⊢
        rcases (List.any_eq_true).mp hkey with ⟨kv, hkv, hkvid⟩
        rcases List.mem_cons.mp hkv with h1 | h1
        · exact absurd (h1 ▸ hkvid) (by simpa using hc)
        · exact (List.any_eq_true).mpr ⟨kv, h1, hkvid⟩
      have ih := upsertRow_filter id r tail hndtail htail
      unfold upsertRow at ih
      rw [if_pos htail] at ih
      simp only [List.map_cons]
      rw [if_neg hc]
      simp only [List.filter_cons]
      rw [if_neg hc]
      exact ih

/-- Claim C2: the persistence upsert is keyed by the numeric id with
insert-or-overwrite semantics. For batches observing each id once (a set
of entries or projects), applying Client.SyncEntries or
Client.SyncProjects twice with unchanged input leaves the stored table
exactly equal to applying it once (same row count and field values); and
re-observing an id already present in a primary-key table with different
field values leaves exactly one row for that id holding the new values,
without changing the row count. -/
theorem upsert_idempotent_overwrite
    (storeE : List (Int × EntryRow)) (es : List TimeEntry)
    (storeP : List (Int × ProjectRow)) (ps : List Project)
    (e : TimeEntry)
    (hesnd : (es.map (fun x => x.ID)).Nodup)
    (hpsnd : (ps.map (fun x => x.ID)).Nodup)
    (hkeys : (storeE.map Prod.fst).Nodup)
    (hmem : hasKey storeE e.ID = true) :
    Client.SyncEntries (Client.SyncEntries storeE es) es = Client.SyncEntries storeE es ∧
    Client.SyncProjects (Client.SyncProjects storeP ps) ps = Client.SyncProjects storeP ps ∧
    (Client.SyncEntries storeE [e]).filter (fun kv => kv.1 == e.ID) = [(e.ID, entryRow e)] ∧
    (Client.SyncEntries storeE [e]).length = storeE.length := by
  refine ⟨?_, ?_, ?_, ?_⟩
  · rcases es with _ | ⟨a, rest⟩
    · rfl
    · have hlen : (a :: rest).length ≠ 0 := by simp
      simp only [Client.SyncEntries, if_neg hlen]
      exact upsertMany_idem _ _ (a :: rest) storeE hesnd
  · rcases ps with _ | ⟨a, rest⟩
    · rfl
    · have hlen : (a :: rest).length ≠ 0 := by simp
      simp only [Client.SyncProjects, if_neg hlen]
      exact upsertMany_idem _ _ (a :: rest) storeP hpsnd
  · have h1 : Client.SyncEntries storeE [e] = upsertRow storeE e.ID (entryRow e) := by
      simp [Client.SyncEntries, upsertMany]
    rw [h1]
    exact upsertRow_filter e.ID (entryRow e) storeE hkeys hmem
  · have h1 : Client.SyncEntries storeE [e] = upsertRow storeE e.ID (entryRow e) := by
      simp [Client.SyncEntries, upsertMany]
    rw [h1]
    unfold upsertRow
    rw [if_pos hmem]
    exact List.length_map _ _

/-- Closed instance of the claim C2 theorem: a two-entry batch (ids 1, 2)
applied twice over a store already holding id 1 with old values, a
one-project batch applied twice over an empty store, and the single
re-observation of id 1 with new field values. -/
theorem upsert_idempotent_overwrite_witness :
    Client.SyncEntries
        (Client.SyncEntries [(1, ⟨"A", none, none, [], 0, none, 0⟩)]
          [⟨1, "B", some 7, none, ["x"], 0, none, -1⟩, ⟨2, "C", none, some 4, [], 5, some 9, 60⟩])
        [⟨1, "B", some 7, none, ["x"], 0, none, -1⟩, ⟨2, "C", none, some 4, [], 5, some 9, 60⟩]
      = Client.SyncEntries [(1, ⟨"A", none, none, [], 0, none, 0⟩)]
          [⟨1, "B", some 7, none, ["x"], 0, none, -1⟩, ⟨2, "C", none, some 4, [], 5, some 9, 60⟩] ∧
    Client.SyncProjects
        (Client.SyncProjects [] [⟨9, 1, "p", true, false, "c", none, 0⟩])
        [⟨9, 1, "p", true, false, "c", none, 0⟩]
      = Client.SyncProjects [] [⟨9, 1, "p", true, false, "c", none, 0⟩] ∧
    (Client.SyncEntries [(1, ⟨"A", none, none, [], 0, none, 0⟩)]
        [⟨1, "B", some 7, none, ["x"], 0, none, -1⟩]).filter
        (fun kv => kv.1 == (⟨1, "B", some 7, none, ["x"], 0, none, -1⟩ : TimeEntry).ID)
      = [((⟨1, "B", some 7, none, ["x"], 0, none, -1⟩ : TimeEntry).ID,
          entryRow ⟨1, "B", some 7, none, ["x"], 0, none, -1⟩)] ∧
    (Client.SyncEntries [(1, ⟨"A", none, none, [], 0, none, 0⟩)]
        [⟨1, "B", some 7, none, ["x"], 0, none, -1⟩]).length
      = [(1, (⟨"A", none, none, [], 0, none, 0⟩ : EntryRow))].length :=
  upsert_idempotent_overwrite
    [(1, ⟨"A", none, none, [], 0, none, 0⟩)]
    [⟨1, "B", some 7, none, ["x"], 0, none, -1⟩, ⟨2, "C", none, some 4, [], 5, some 9, 60⟩]
    []
    [⟨9, 1, "p", true, false, "c", none, 0⟩]
    ⟨1, "B", some 7, none, ["x"], 0, none, -1⟩
    (by decide) (by decide) (by decide) (by decide)

lemma jdn_day_step (y m d : Nat) :
    Date.jdn ⟨y, m, d + 1⟩ = Date.jdn ⟨y, m, d⟩ + 1 := by
  unfold Date.jdn; dsimp only; omega

lemma jdn_m1 (y : Nat) : Date.jdn ⟨y, 2, 1⟩ = Date.jdn ⟨y, 1, 31⟩ + 1 := by
  unfold Date.jdn; dsimp only; omega

lemma jdn_m2_leap (y : Nat) (h : y % 4 = 0 ∧ (¬ y % 100 = 0 ∨ y % 400 = 0)) :
    Date.jdn ⟨y, 3, 1⟩ = Date.jdn ⟨y, 2, 29⟩ + 1 := by
  unfold Date.jdn; dsimp only; omega

set_option maxHeartbeats 3200000 in
lemma jdn_m2_common (y : Nat) (h : ¬ (y % 4 = 0 ∧ (¬ y % 100 = 0 ∨ y % 400 = 0))) :
    Date.jdn ⟨y, 3, 1⟩ = Date.jdn ⟨y, 2, 28⟩ + 1 := by
  unfold Date.jdn; dsimp only; omega

lemma jdn_m3 (y : Nat) : Date.jdn ⟨y, 4, 1⟩ = Date.jdn ⟨y, 3, 31⟩ + 1 := by
  unfold Date.jdn; dsimp only; omega

lemma jdn_m4 (y : Nat) : Date.jdn ⟨y, 5, 1⟩ = Date.jdn ⟨y, 4, 30⟩ + 1 := by
  unfold Date.jdn; dsimp only; omega

lemma jdn_m5 (y : Nat) : Date.jdn ⟨y, 6, 1⟩ = Date.jdn ⟨y, 5, 31⟩ + 1 := by
  unfold Date.jdn; dsimp only; omega

lemma jdn_m6 (y : Nat) : Date.jdn ⟨y, 7, 1⟩ = Date.jdn ⟨y, 6, 30⟩ + 1 := by
  unfold Date.jdn; dsimp only; omega

lemma jdn_m7 (y : Nat) : Date.jdn ⟨y, 8, 1⟩ = Date.jdn ⟨y, 7, 31⟩ + 1 := by
  unfold Date.jdn; dsimp only; omega

lemma jdn_m8 (y : Nat) : Date.jdn ⟨y, 9, 1⟩ = Date.jdn ⟨y, 8, 31⟩ + 1 := by
  unfold Date.jdn; dsimp only; omega

lemma jdn_m9 (y : Nat) : Date.jdn ⟨y, 10, 1⟩ = Date.jdn ⟨y, 9, 30⟩ + 1 := by
  unfold Date.jdn; dsimp only; omega

lemma jdn_m10 (y : Nat) : Date.jdn ⟨y, 11, 1⟩ = Date.jdn ⟨y, 10, 31⟩ + 1 := by
  unfold Date.jdn; dsimp only; omega

lemma jdn_m11 (y : Nat) : Date.jdn ⟨y, 12, 1⟩ = Date.jdn ⟨y, 11, 30⟩ + 1 := by
  unfold Date.jdn; dsimp only; omega

lemma jdn_m12 (y : Nat) : Date.jdn ⟨y + 1, 1, 1⟩ = Date.jdn ⟨y, 12, 31⟩ + 1 := by
  unfold Date.jdn; dsimp only; omega

lemma jdn_specNextCalendarDate (dt : Date) (hv : dt.Valid) :
    (specNextCalendarDate dt).jdn = dt.jdn + 1 := by
  obtain ⟨y, m, d⟩ := dt
  obtain ⟨h1, h2, h3, h4⟩ := hv
  dsimp only at h1 h2 h3 h4
  unfold specNextCalendarDate
  dsimp only
  by_cases hd : d < daysInMonth y m
  · rw [if_pos hd]
    exact jdn_day_step y m d
  · rw [if_neg hd]
    have hdim : d = daysInMonth y m := Nat.le_antisymm h4 (Nat.not_lt.mp hd)
    clear hd h3 h4
    by_cases hm : m < 12
    · rw [if_pos hm]
      have h11 : m ≤ 11 := by omega
      clear hm h2
      interval_cases m
      · rw [show daysInMonth y 1 = 31 from by norm_num [daysInMonth]] at hdim
        subst hdim
        exact jdn_m1 y
      · by_cases hl : isLeap y = true
        · rw [show daysInMonth y 2 = 29 from by simp [daysInMonth, hl]] at hdim
          subst hdim
          refine jdn_m2_leap y ?_
          simpa [isLeap, Bool.and_eq_true, beq_iff_eq, Bool.or_eq_true,
            bne_iff_ne, ne_eq] using hl
        · rw [show daysInMonth y 2 = 28 from by simp [daysInMonth, hl]] at hdim
          subst hdim
          refine jdn_m2_common y ?_
          simpa [isLeap, Bool.and_eq_true, beq_iff_eq, Bool.or_eq_true,
            bne_iff_ne, ne_eq] using hl
      · rw [show daysInMonth y 3 = 31 from by norm_num [daysInMonth]] at hdim
        subst hdim
        exact jdn_m3 y
      · rw [show daysInMonth y 4 = 30 from by norm_num [daysInMonth]] at hdim
        subst hdim
        exact jdn_m4 y
      · rw [show daysInMonth y 5 = 31 from by norm_num [daysInMonth]] at hdim
        subst hdim
        exact jdn_m5 y
      · rw [show daysInMonth y 6 = 30 from by norm_num [daysInMonth]] at hdim
        subst hdim
        exact jdn_m6 y
      · rw [show daysInMonth y 7 = 31 from by norm_num [daysInMonth]] at hdim
        subst hdim
        exact jdn_m7 y
      · rw [show daysInMonth y 8 = 31 from by norm_num [daysInMonth]] at hdim
        subst hdim
        exact jdn_m8 y
      · rw [show daysInMonth y 9 = 30 from by norm_num [daysInMonth]] at hdim
        subst hdim
        exact jdn_m9 y
      · rw [show daysInMonth y 10 = 31 from by norm_num [daysInMonth]] at hdim
        subst hdim
        exact jdn_m10 y
      · rw [show daysInMonth y 11 = 30 from by norm_num [daysInMonth]] at hdim
        subst hdim
        exact jdn_m11 y
    · rw [if_neg hm]
      have hm12 : m = 12 := by omega
      subst hm12
      rw [show daysInMonth y 12 = 31 from by norm_num [daysInMonth]] at hdim
      subst hdim
      exact jdn_m12 y

lemma parseEnd_date_resolves (dt : Date) (hv : dt.Valid) :
    dayFloor (dt.midnightUTC + secondsPerDay) = (specNextCalendarDate dt).midnightUTC := by
  have h := jdn_specNextCalendarDate dt hv
  unfold Date.midnightUTC dayFloor secondsPerDay unixEpochJdn
  rw [h]
  push_cast
  omega

/-- Claim C5: in both the CLI and HTTP window parsers, a calendar-date
token used as a start boundary resolves to midnight UTC of that date, and
used as an end boundary resolves to midnight UTC of the next calendar
date, while a full timestamp token is used exactly as given. -/
theorem window_parser_date_resolution (dt : Date) (hv : dt.Valid) (dflt t : Int) :
    parseStart (Token.dateOnly dt) dflt = Except.ok dt.midnightUTC ∧
    parseStartHTTP (Token.dateOnly dt) dflt = dt.midnightUTC ∧
    parseEnd (Token.dateOnly dt) dflt = Except.ok (specNextCalendarDate dt).midnightUTC ∧
    parseEndHTTP (Token.dateOnly dt) dflt = (specNextCalendarDate dt).midnightUTC ∧
    parseStart (Token.rfc3339 t) dflt = Except.ok t ∧
    parseEnd (Token.rfc3339 t) dflt = Except.ok t ∧
    parseStartHTTP (Token.rfc3339 t) dflt = t ∧
    parseEndHTTP (Token.rfc3339 t) dflt = t := by
  refine ⟨rfl, rfl, ?_, ?_, rfl, rfl, rfl, rfl⟩
  · show Except.ok (dayFloor (dt.midnightUTC + secondsPerDay)) = _
    rw [parseEnd_date_resolves dt hv]
  · show dayFloor (dt.midnightUTC + secondsPerDay) = _
    rw [parseEnd_date_resolves dt hv]

/-- Closed instance of the claim C5 theorem at the spec's anchor dates:
the end token 2025-08-15 resolves to 2025-08-16T00:00:00Z (epoch second
1755302400) and the start token 2025-08-01 resolves to
2025-08-01T00:00:00Z (epoch second 1754006400), in both parsers. -/
theorem window_parser_date_resolution_witness :
    parseEnd (Token.dateOnly ⟨2025, 8, 15⟩) 0
      = Except.ok (Date.midnightUTC ⟨2025, 8, 16⟩) ∧
    parseStart (Token.dateOnly ⟨2025, 8, 1⟩) 0
      = Except.ok (Date.midnightUTC ⟨2025, 8, 1⟩) ∧
    parseEndHTTP (Token.dateOnly ⟨2025, 8, 15⟩) 0 = 1755302400 ∧
    parseStartHTTP (Token.dateOnly ⟨2025, 8, 1⟩) 0 = 1754006400 := by
  have h15 := window_parser_date_resolution ⟨2025, 8, 15⟩ (by decide) 0 0
  have h01 := window_parser_date_resolution ⟨2025, 8, 1⟩ (by decide) 0 0
  refine ⟨?_, h01.1, ?_, ?_⟩
  · rw [h15.2.2.1]
    rw [show specNextCalendarDate ⟨2025, 8, 15⟩ = ⟨2025, 8, 16⟩ from by decide]
  · rw [h15.2.2.2.1]
    rw [show specNextCalendarDate ⟨2025, 8, 15⟩ = ⟨2025, 8, 16⟩ from by decide]
    decide
  · rw [h01.2.1]
    decide

lemma migrateLoop_spec (applied : List Int) :
    ∀ (fs : List String) (ledger : List Int) (executed : List String),
      (∀ f ∈ fs, (parseVersion f).isSome) →
      migrateLoop applied fs ledger executed =
        Except.ok
          (ledger ++ (fs.filter (fun f => decide (versionOf f ∉ applied))).map versionOf,
           executed ++ fs.filter (fun f => decide (versionOf f ∉ applied)))
  | [], ledger, executed, _ => by simp [migrateLoop]
  | f :: fs, ledger, executed, hparse => by
    have hf : (parseVersion f).isSome := hparse f (List.mem_cons_self _ _)
    obtain ⟨v, hv⟩ := Option.isSome_iff_exists.mp hf
    have hvf : versionOf f = v := by unfold versionOf; rw [hv]; rfl
    unfold migrateLoop
    rw [hv]
    dsimp only
    by_cases hap : v ∈ applied
    · rw [if_pos hap]
      rw [migrateLoop_spec applied fs ledger executed
        (fun g hg => hparse g (List.mem_cons_of_mem _ hg))]
      simp [List.filter_cons, hvf, hap]
    · rw [if_neg hap]
      rw [migrateLoop_spec applied fs (ledger ++ [v]) (executed ++ [f])
        (fun g hg => hparse g (List.mem_cons_of_mem _ hg))]
      simp [List.filter_cons, hvf, hap]

/-- Claim C6: the migrator applies scripts in strictly ascending numeric
version order (given the repository's naming convention, under which the
lexicographic sort of the zero-padded file names agrees with the numeric
version order and versions are distinct), skips every version already in
the ledger, and appends one ledger record per executed script in the same
order; concretely, with scripts versioned 1 and 2 and version 1 already
recorded, only script 2 runs and is recorded, and a re-run with both
versions recorded executes nothing. -/
theorem migrator_ordering_and_skip
    (files : List String) (applied : List Int)
    (hparse : ∀ f ∈ sortStrings files, (parseVersion f).isSome)
    (hcompat : (sortStrings files).Pairwise (fun a b => versionOf a ≤ versionOf b))
    (hnd : ((sortStrings files).map versionOf).Nodup) :
    (∃ executed,
      migrateRun files applied = Except.ok (executed.map versionOf, executed) ∧
      executed = (sortStrings files).filter (fun f => decide (versionOf f ∉ applied)) ∧
      (executed.map versionOf).Pairwise (fun a b => a < b) ∧
      (∀ f ∈ executed, versionOf f ∉ applied)) ∧
    migrateRun migrationFiles [1] = Except.ok ([2], ["0002_projects.sql"]) ∧
    migrateRun migrationFiles [1, 2] = Except.ok ([], []) := by
  refine ⟨?_, by rfl, by rfl⟩
  refine ⟨(sortStrings files).filter (fun f => decide (versionOf f ∉ applied)),
    ?_, rfl, ?_, ?_⟩
  · unfold migrateRun
    rw [migrateLoop_spec applied (sortStrings files) [] [] hparse]
    simp
  · have hle := hcompat.filter (fun f => decide (versionOf f ∉ applied))
    have hmaple := List.Pairwise.map versionOf (fun a b h => h) hle
    have hsub : List.Sublist
        (((sortStrings files).filter
          (fun f => decide (versionOf f ∉ applied))).map versionOf)
        ((sortStrings files).map versionOf) :=
      List.Sublist.map versionOf (List.filter_sublist _)
    have hnd2 := List.Nodup.sublist hsub hnd
    exact (hmaple.and hnd2).imp (fun hab => lt_of_le_of_ne hab.1 hab.2)
  · intro f hf
    have hm := List.mem_filter.mp hf
    simpa using hm.2

/-- Closed instance of the claim C6 theorem at the repository's embedded
scripts: with version 1 recorded only script 2 runs and is recorded, and a
re-run with versions 1 and 2 recorded executes neither. -/
theorem migrator_ordering_and_skip_witness :
    migrateRun migrationFiles [1] = Except.ok ([2], ["0002_projects.sql"]) ∧
    migrateRun migrationFiles [1, 2] = Except.ok ([], []) := by
  have h := migrator_ordering_and_skip migrationFiles [1] (by decide) (by decide) (by decide)
  exact ⟨h.2.1, h.2.2⟩
